import Mathlib

/-!
# Verification of the UART ring buffer (`src/ring_buffer.c`)

Shallow embedding of the ring buffer implementation and the UART read glue.

The C code stores bytes (`unsigned char`) in a caller-supplied array and
keeps two free-running cursors `head` and `tail` of type `unsigned int`.
Cursor arithmetic wraps at the width of `unsigned int`, which is platform
dependent; every definition below is therefore parametrized by the cursor
bit width `W`, with `2 ^ W` the wraparound modulus.  Bytes are modelled as
natural numbers, the backing array as a `List Nat`, and NULL pointers by
`Option`.  Each C function returning `int` error codes is modelled as a
function returning the `Int` error code together with the updated state.
-/

namespace RingBufferC

/-- The wraparound modulus of the C `unsigned int` cursors at bit width `W`. -/
def umod (W : Nat) : Nat := 2 ^ W

/-- C unsigned subtraction `a - b` at bit width `W`: wraps on underflow
(`(head - tail)` and `(n_elem - 1)` in the source are computed this way). -/
def usub (W a b : Nat) : Nat := (a + (umod W - b % umod W)) % umod W

/-- `struct ring_buffer` (src/ring_buffer.c lines 22-28): capacity `n_elem`,
backing byte array `buf`, and the two free-running unsigned cursors. -/
structure ring_buffer where
  n_elem : Nat
  buf : List Nat
  head : Nat
  tail : Nat
deriving Repr, DecidableEq

/-- `struct ringbuffer_attribute` (src/ring_buffer.c lines 16-20); `buffer`
is a possibly-NULL pointer, modelled by `Option` of the array contents. -/
structure ringbuffer_attribute where
  n_elem : Nat
  buffer : Option (List Nat)
deriving Repr, DecidableEq

/-- `ring_buffer_full` (src/ring_buffer.c lines 63-66):
`((rbp->head - rbp->tail) == rbp->n_elem) ? 1 : 0`, as a `Bool`. -/
def ring_buffer_full (W : Nat) (rb : ring_buffer) : Bool :=
  usub W rb.head rb.tail == rb.n_elem

/-- `ring_buffer_empty` (src/ring_buffer.c lines 73-76):
`((rbp->head - rbp->tail) == 0U) ? 1 : 0`, as a `Bool`. -/
def ring_buffer_empty (W : Nat) (rb : ring_buffer) : Bool :=
  usub W rb.head rb.tail == 0

/-- `ring_buffer_init` (src/ring_buffer.c lines 83-105).  Takes the
possibly-NULL attribute pointer and the current global `ringbuffer`;
returns the `int` result and the (possibly updated) global state.
The capacity test is exactly `((attr->n_elem - 1) & attr->n_elem) == 0`
with unsigned subtraction. -/
def ring_buffer_init (W : Nat) (attr : Option ringbuffer_attribute)
    (rb : ring_buffer) : Int × ring_buffer :=
  match attr with
  | none => (-1, rb)
  | some a =>
    match a.buffer with
    | none => (-1, rb)
    | some storage =>
      if usub W a.n_elem 1 &&& a.n_elem == 0 then
        (0, { head := 0, tail := 0, buf := storage, n_elem := a.n_elem })
      else
        (-1, rb)

/-- `ring_buffer_put` (src/ring_buffer.c lines 112-125): if the buffer is
not full, write the byte at `head & (n_elem - 1)` and increment `head`
(wrapping at `2 ^ W`); otherwise return `-1` and change nothing. -/
def ring_buffer_put (W : Nat) (rb : ring_buffer) (data : Nat) :
    Int × ring_buffer :=
  if ring_buffer_full W rb then
    (-1, rb)
  else
    let offset := rb.head &&& usub W rb.n_elem 1
    (0, { rb with buf := rb.buf.set offset data,
                  head := (rb.head + 1) % umod W })

/-- `ring_buffer_get` (src/ring_buffer.c lines 132-145): if the buffer is
not empty, read the byte at `tail & (n_elem - 1)` and increment `tail`
(wrapping at `2 ^ W`); otherwise return `-1`, no byte, and change nothing.
The middle component is the byte copied into the caller's out parameter. -/
def ring_buffer_get (W : Nat) (rb : ring_buffer) :
    Int × Option Nat × ring_buffer :=
  if ring_buffer_empty W rb then
    (-1, none, rb)
  else
    let offset := rb.tail &&& usub W rb.n_elem 1
    (0, some (rb.buf.getD offset 0),
     { rb with tail := (rb.tail + 1) % umod W })

/-- Value of a C `char` (signed, 8 bit) whose byte representation is the
byte `b`: `uart_getchar`'s out variable has type `char`, so the stored
`unsigned char` is reinterpreted this way. -/
def schar_val (b : Nat) : Int :=
  if b % 256 < 128 then (b % 256 : Int) else (b % 256 : Int) - 256

/-- `uart_getchar` (src/ring_buffer.c lines 165-173): `char c = -1;` then
`if (ring_buffer_get(&c) == 0) retval = (int) c;`.  Returns the `int`
result and the updated buffer state. -/
def uart_getchar (W : Nat) (rb : ring_buffer) : Int × ring_buffer :=
  let r := ring_buffer_get W rb
  let c : Int :=
    match r.2.1 with
    | some b => schar_val b
    | none => -1
  (if r.1 == 0 then c else -1, r.2.2)

/-- One `put`/`get` call in a sequence of operations on the buffer. -/
inductive Op where
  | put (data : Nat)
  | get
deriving Repr, DecidableEq

/-- State change of one operation (discarding the returned codes). -/
def step (W : Nat) (rb : ring_buffer) : Op → ring_buffer
  | .put b => (ring_buffer_put W rb b).2
  | .get => (ring_buffer_get W rb).2.2

/-- Run a sequence of operations from a state. -/
def run (W : Nat) (rb : ring_buffer) (ops : List Op) : ring_buffer :=
  ops.foldl (step W) rb

/-- Whether a `put` of `b` from state `rb` returns success (`0`). -/
def put_ok (W : Nat) (rb : ring_buffer) (b : Nat) : Bool :=
  (ring_buffer_put W rb b).1 == 0

/-- Whether a `get` from state `rb` returns success (`0`). -/
def get_ok (W : Nat) (rb : ring_buffer) : Bool :=
  (ring_buffer_get W rb).1 == 0

/-- Numbers of successful `put`s and of successful `get`s when running
`ops` from `rb`. -/
def countSucc (W : Nat) (rb : ring_buffer) : List Op → Nat × Nat
  | [] => (0, 0)
  | op :: ops =>
    let rest := countSucc W (step W rb op) ops
    match op with
    | .put b => (if put_ok W rb b then rest.1 + 1 else rest.1, rest.2)
    | .get => (rest.1, if get_ok W rb then rest.2 + 1 else rest.2)

/-- The ideal bounded FIFO queue of capacity `cap`: `put` appends when
there is room and is dropped otherwise, `get` removes the oldest element
when there is one.  Reference model for the simulation proofs. -/
def idealStep (cap : Nat) (q : List Nat) : Op → List Nat
  | .put b => if q.length < cap then q ++ [b] else q
  | .get => q.tail

/-- Run a sequence of operations on the ideal queue. -/
def idealRun (cap : Nat) (q : List Nat) (ops : List Op) : List Nat :=
  ops.foldl (idealStep cap) q

/-- The live bytes of the buffer, oldest first: slot `(tail + i) & mask`
for `i` below the cursor distance. -/
def contents (W : Nat) (rb : ring_buffer) : List Nat :=
  (List.range (usub W rb.head rb.tail)).map
    (fun i => rb.buf.getD ((rb.tail + i) &&& usub W rb.n_elem 1) 0)

/-- A well-formed buffer state: the backing array has length `n_elem`, the
capacity is a power of two representable in the cursor type, and the
cursors are `unsigned int` values at width `W`. -/
def Initialized (W : Nat) (rb : ring_buffer) : Prop :=
  rb.buf.length = rb.n_elem ∧
  (∃ k, k < W ∧ rb.n_elem = 2 ^ k) ∧
  rb.head < umod W ∧ rb.tail < umod W

/-- The demo configuration of the source (`RING_BUFFER_SIZE 8` with the
zeroed `RingBufferMemory` array and 32-bit cursors), freshly initialized:
used to instantiate the general theorems at concrete values. -/
def demoState : ring_buffer :=
  { n_elem := 8, buf := List.replicate 8 0, head := 0, tail := 0 }

/-! ### Arithmetic of the wrapping cursor subtraction -/

lemma umod_pos (W : Nat) : 0 < umod W := Nat.two_pow_pos W

lemma usub_lt (W a b : Nat) : usub W a b < umod W :=
  Nat.mod_lt _ (umod_pos W)

/-- Closed form of the wrapping subtraction on in-range operands. -/
lemma usub_char (W a b : Nat) (ha : a < umod W) (hb : b < umod W) :
    usub W a b = if b ≤ a then a - b else a + umod W - b := by
  have hM : 0 < umod W := umod_pos W
  unfold usub
  rw [Nat.mod_eq_of_lt hb]
  by_cases h : b ≤ a
  · rw [if_pos h]
    have h1 : umod W ≤ a + (umod W - b) := by omega
    rw [Nat.mod_eq_sub_mod h1, Nat.mod_eq_of_lt (by omega)]
    omega
  · rw [if_neg h, Nat.mod_eq_of_lt (by omega)]
    omega

lemma usub_eq_zero_iff (W a b : Nat) (ha : a < umod W) (hb : b < umod W) :
    usub W a b = 0 ↔ a = b := by
  rw [usub_char W a b ha hb]
  split_ifs <;> omega

/-- Effect of a successful `put` on the cursor distance. -/
lemma usub_head_succ (W a b : Nat) (ha : a < umod W) (hb : b < umod W)
    (h : usub W a b + 1 < umod W) :
    usub W ((a + 1) % umod W) b = usub W a b + 1 := by
  have hM : 0 < umod W := umod_pos W
  rw [usub_char W a b ha hb] at h ⊢
  rcases Nat.lt_or_ge (a + 1) (umod W) with hA | hA
  · rw [Nat.mod_eq_of_lt hA, usub_char W (a + 1) b hA hb]
    split_ifs at h ⊢ <;> omega
  · have hA1 : a + 1 = umod W := by omega
    rw [hA1, Nat.mod_self, usub_char W 0 b hM hb]
    split_ifs at h ⊢ <;> omega

/-- Effect of a successful `get` on the cursor distance. -/
lemma usub_tail_succ (W a b : Nat) (ha : a < umod W) (hb : b < umod W)
    (h : 0 < usub W a b) :
    usub W a ((b + 1) % umod W) = usub W a b - 1 := by
  have hM : 0 < umod W := umod_pos W
  rw [usub_char W a b ha hb] at h ⊢
  rcases Nat.lt_or_ge (b + 1) (umod W) with hB | hB
  · rw [Nat.mod_eq_of_lt hB, usub_char W a (b + 1) ha hB]
    split_ifs at h ⊢ <;> omega
  · have hB1 : b + 1 = umod W := by omega
    rw [hB1, Nat.mod_self, usub_char W a 0 ha hM]
    split_ifs at h ⊢ <;> omega

/-- A power-of-two capacity below the cursor width passes the source's
capacity test `((n_elem - 1) & n_elem) == 0`. -/
lemma pow_two_mask_test (W k : Nat) (hk : k < W) :
    usub W (2 ^ k) 1 &&& 2 ^ k = 0 := by
  have h1 : (1 : Nat) < umod W := by
    have : (2 : Nat) ^ 1 ≤ 2 ^ W := Nat.pow_le_pow_right (by decide) (by omega)
    unfold umod
    omega
  have hklt : 2 ^ k < umod W := Nat.pow_lt_pow_right (by decide) hk
  rw [usub_char W (2 ^ k) 1 hklt h1, if_pos (Nat.one_le_two_pow)]
  rw [Nat.and_comm, Nat.and_pow_two_sub_one_eq_mod, Nat.mod_self]

/-- The mask `n_elem - 1` computed by the source, for a power-of-two
capacity below the cursor width. -/
lemma mask_eq (W k : Nat) (hk : k < W) : usub W (2 ^ k) 1 = 2 ^ k - 1 := by
  have h1 : (1 : Nat) < umod W := by
    have : (2 : Nat) ^ 1 ≤ 2 ^ W := Nat.pow_le_pow_right (by decide) (by omega)
    unfold umod
    omega
  have hklt : 2 ^ k < umod W := Nat.pow_lt_pow_right (by decide) hk
  rw [usub_char W (2 ^ k) 1 hklt h1, if_pos (Nat.one_le_two_pow)]

/-- The slot offset computed by the source is reduction modulo the
capacity. -/
lemma offset_eq (W k x : Nat) (hk : k < W) :
    x &&& usub W (2 ^ k) 1 = x % 2 ^ k := by
  rw [mask_eq W k hk, Nat.and_pow_two_sub_one_eq_mod]

/-- Reduction modulo `2 ^ W` and then modulo a smaller power of two is
reduction modulo the smaller power. -/
lemma mod_umod_pow (W k x : Nat) (hk : k ≤ W) :
    x % umod W % 2 ^ k = x % 2 ^ k :=
  Nat.mod_mod_of_dvd x (pow_dvd_pow 2 hk)

/-- The head cursor is congruent to `tail + distance` modulo the capacity. -/
lemma head_mod_eq (W k a b : Nat) (ha : a < umod W) (hb : b < umod W)
    (hk : k ≤ W) :
    a % 2 ^ k = (b + usub W a b) % 2 ^ k := by
  rw [usub_char W a b ha hb]
  by_cases h : b ≤ a
  · rw [if_pos h]
    congr 1
    omega
  · rw [if_neg h]
    have hbd : b + (a + umod W - b) = a + umod W := by omega
    rw [hbd]
    have hdvd : umod W % 2 ^ k = 0 :=
      Nat.mod_eq_zero_of_dvd (pow_dvd_pow 2 hk)
    conv_rhs => rw [Nat.add_mod, hdvd]
    simp

/-! ### Simulation by the ideal bounded queue -/

lemma contents_length (W : Nat) (rb : ring_buffer) :
    (contents W rb).length = usub W rb.head rb.tail := by
  simp [contents]

lemma contents_eq (W k : Nat) (hk : k < W) (rb : ring_buffer)
    (hcap : rb.n_elem = 2 ^ k) :
    contents W rb = (List.range (usub W rb.head rb.tail)).map
      (fun i => rb.buf.getD ((rb.tail + i) % 2 ^ k) 0) := by
  unfold contents
  rw [hcap]
  congr 1
  funext i
  rw [offset_eq W k _ hk]

lemma add_mod_umod (W k x i : Nat) (hk : k ≤ W) :
    (x % umod W + i) % 2 ^ k = (x + i) % 2 ^ k := by
  conv_lhs => rw [Nat.add_mod, mod_umod_pow W k x hk, ← Nat.add_mod]

/-- One operation preserves well-formedness and is simulated by the ideal
bounded queue. -/
lemma step_sim (W k : Nat) (hk : k < W) (rb : ring_buffer) (op : Op)
    (hcap : rb.n_elem = 2 ^ k) (hlen : rb.buf.length = rb.n_elem)
    (hh : rb.head < umod W) (ht : rb.tail < umod W)
    (hd : usub W rb.head rb.tail ≤ rb.n_elem) :
    (step W rb op).n_elem = rb.n_elem ∧
    (step W rb op).buf.length = rb.n_elem ∧
    (step W rb op).head < umod W ∧
    (step W rb op).tail < umod W ∧
    usub W (step W rb op).head (step W rb op).tail ≤ rb.n_elem ∧
    contents W (step W rb op) = idealStep rb.n_elem (contents W rb) op := by
  have hcapM : 2 ^ k < umod W := Nat.pow_lt_pow_right (by decide) hk
  cases op with
  | put b =>
    by_cases hfull : ring_buffer_full W rb = true
    · have hstep : step W rb (.put b) = rb := by
        simp [step, ring_buffer_put, hfull]
      have hq : (contents W rb).length = rb.n_elem := by
        rw [contents_length]
        simpa [ring_buffer_full] using hfull
      rw [hstep]
      exact ⟨rfl, hlen, hh, ht, hd, by simp [idealStep, hq]⟩
    · have hfull' : usub W rb.head rb.tail ≠ rb.n_elem := by
        simpa [ring_buffer_full] using hfull
      have hdlt : usub W rb.head rb.tail < rb.n_elem := lt_of_le_of_ne hd hfull'
      have hd1 : usub W rb.head rb.tail + 1 < umod W := by
        rw [hcap] at hdlt; omega
      have hoff : rb.head &&& usub W rb.n_elem 1 = rb.head % 2 ^ k := by
        rw [hcap, offset_eq W k _ hk]
      have hstep : step W rb (.put b) =
          { rb with buf := rb.buf.set (rb.head % 2 ^ k) b,
                    head := (rb.head + 1) % umod W } := by
        simp [step, ring_buffer_put, hfull, hoff]
      have hd' : usub W ((rb.head + 1) % umod W) rb.tail
          = usub W rb.head rb.tail + 1 :=
        usub_head_succ W rb.head rb.tail hh ht hd1
      have hmod : rb.head % 2 ^ k = (rb.tail + usub W rb.head rb.tail) % 2 ^ k :=
        head_mod_eq W k rb.head rb.tail hh ht (le_of_lt hk)
      rw [hstep]
      refine ⟨rfl, by simpa using hlen, Nat.mod_lt _ (umod_pos W), ht, ?_, ?_⟩
      · show usub W ((rb.head + 1) % umod W) rb.tail ≤ rb.n_elem
        rw [hd']
        omega
      · rw [contents_eq W k hk rb hcap,
          contents_eq W k hk
            { rb with buf := rb.buf.set (rb.head % 2 ^ k) b,
                      head := (rb.head + 1) % umod W } hcap]
        show (List.range (usub W ((rb.head + 1) % umod W) rb.tail)).map
            (fun i => (rb.buf.set (rb.head % 2 ^ k) b).getD
              ((rb.tail + i) % 2 ^ k) 0)
          = idealStep rb.n_elem _ (.put b)
        rw [hd']
        simp only [idealStep, List.length_map, List.length_range]
        rw [if_pos hdlt, List.range_succ, List.map_append, List.map_cons,
          List.map_nil]
        congr 1
        · apply List.map_congr_left
          intro i hi
          have hilt : i < usub W rb.head rb.tail := List.mem_range.mp hi
          have hne : rb.head % 2 ^ k ≠ (rb.tail + i) % 2 ^ k := by
            intro hcontra
            rw [hmod] at hcontra
            have h2 : usub W rb.head rb.tail ≡ i [MOD 2 ^ k] :=
              Nat.ModEq.add_left_cancel rfl hcontra
            have h3 : usub W rb.head rb.tail = i := by
              have hck : usub W rb.head rb.tail < 2 ^ k := by omega
              rwa [Nat.ModEq, Nat.mod_eq_of_lt hck,
                Nat.mod_eq_of_lt (by omega)] at h2
            omega
          rw [List.getD_eq_getElem?_getD, List.getD_eq_getElem?_getD,
            List.getElem?_set_ne hne]
        · have hidx : (rb.tail + usub W rb.head rb.tail) % 2 ^ k
              = rb.head % 2 ^ k := hmod.symm
          rw [hidx, List.getD_eq_getElem?_getD]
          have hpos : rb.head % 2 ^ k < rb.buf.length := by
            rw [hlen, hcap]
            exact Nat.mod_lt _ (Nat.two_pow_pos k)
          rw [List.getElem?_set_self hpos]
          rfl
  | get =>
    by_cases hempty : ring_buffer_empty W rb = true
    · have hstep : step W rb .get = rb := by
        simp [step, ring_buffer_get, hempty]
      have hq : contents W rb = [] := by
        have h0 : usub W rb.head rb.tail = 0 := by
          simpa [ring_buffer_empty] using hempty
        simp [contents, h0]
      rw [hstep]
      exact ⟨rfl, hlen, hh, ht, hd, by simp [idealStep, hq]⟩
    · have hempty' : usub W rb.head rb.tail ≠ 0 := by
        simpa [ring_buffer_empty] using hempty
      have hdpos : 0 < usub W rb.head rb.tail := Nat.pos_of_ne_zero hempty'
      have hstep : step W rb .get = { rb with tail := (rb.tail + 1) % umod W } := by
        simp [step, ring_buffer_get, hempty]
      have hd' : usub W rb.head ((rb.tail + 1) % umod W)
          = usub W rb.head rb.tail - 1 :=
        usub_tail_succ W rb.head rb.tail hh ht hdpos
      rw [hstep]
      refine ⟨rfl, hlen, hh, Nat.mod_lt _ (umod_pos W), ?_, ?_⟩
      · show usub W rb.head ((rb.tail + 1) % umod W) ≤ rb.n_elem
        rw [hd']
        omega
      · rw [contents_eq W k hk rb hcap,
          contents_eq W k hk { rb with tail := (rb.tail + 1) % umod W } hcap]
        show (List.range (usub W rb.head ((rb.tail + 1) % umod W))).map
            (fun i => rb.buf.getD (((rb.tail + 1) % umod W + i) % 2 ^ k) 0)
          = idealStep rb.n_elem _ .get
        rw [hd']
        simp only [idealStep]
        obtain ⟨m, hm⟩ : ∃ m, usub W rb.head rb.tail = m + 1 :=
          ⟨usub W rb.head rb.tail - 1, by omega⟩
        rw [hm]
        simp only [Nat.add_sub_cancel]
        rw [List.range_succ_eq_map, List.map_cons, List.tail_cons, List.map_map]
        apply List.map_congr_left
        intro i hi
        have h1 : ((rb.tail + 1) % umod W + i) % 2 ^ k
            = (rb.tail + 1 + i) % 2 ^ k :=
          add_mod_umod W k (rb.tail + 1) i (le_of_lt hk)
        simp only [Function.comp_apply]
        rw [h1]
        have h2 : rb.tail + 1 + i = rb.tail + Nat.succ i := by omega
        rw [h2]

/-- Get returns exactly the oldest live byte (or nothing when empty). -/
lemma get_val (W k : Nat) (hk : k < W) (rb : ring_buffer)
    (hcap : rb.n_elem = 2 ^ k) :
    (ring_buffer_get W rb).2.1 = (contents W rb).head? := by
  by_cases hempty : ring_buffer_empty W rb = true
  · have h0 : usub W rb.head rb.tail = 0 := by
      simpa [ring_buffer_empty] using hempty
    simp [ring_buffer_get, hempty, contents, h0]
  · have hempty' : usub W rb.head rb.tail ≠ 0 := by
      simpa [ring_buffer_empty] using hempty
    obtain ⟨m, hm⟩ : ∃ m, usub W rb.head rb.tail = m + 1 :=
      ⟨usub W rb.head rb.tail - 1, by omega⟩
    rw [contents_eq W k hk rb hcap, hm, List.range_succ_eq_map, List.map_cons]
    have hoff : rb.tail &&& usub W rb.n_elem 1 = rb.tail % 2 ^ k := by
      rw [hcap, offset_eq W k _ hk]
    simp [ring_buffer_get, hempty, hoff]

/-- A whole run preserves well-formedness and is simulated by the ideal
bounded queue. -/
lemma run_sim (W k : Nat) (hk : k < W) (ops : List Op) (rb : ring_buffer)
    (hcap : rb.n_elem = 2 ^ k) (hlen : rb.buf.length = rb.n_elem)
    (hh : rb.head < umod W) (ht : rb.tail < umod W)
    (hd : usub W rb.head rb.tail ≤ rb.n_elem) :
    (run W rb ops).n_elem = rb.n_elem ∧
    (run W rb ops).buf.length = rb.n_elem ∧
    (run W rb ops).head < umod W ∧
    (run W rb ops).tail < umod W ∧
    usub W (run W rb ops).head (run W rb ops).tail ≤ rb.n_elem ∧
    contents W (run W rb ops) = idealRun rb.n_elem (contents W rb) ops := by
  induction ops generalizing rb with
  | nil => exact ⟨rfl, hlen, hh, ht, hd, rfl⟩
  | cons op ops ih =>
    obtain ⟨h1, h2, h3, h4, h5, h6⟩ := step_sim W k hk rb op hcap hlen hh ht hd
    have hcap' : (step W rb op).n_elem = 2 ^ k := by rw [h1, hcap]
    have hlen' : (step W rb op).buf.length = (step W rb op).n_elem := by
      rw [h1]; exact h2
    have hd5 : usub W (step W rb op).head (step W rb op).tail
        ≤ (step W rb op).n_elem := by rw [h1]; exact h5
    obtain ⟨g1, g2, g3, g4, g5, g6⟩ := ih (step W rb op) hcap' hlen' h3 h4 hd5
    have hrun : run W rb (op :: ops) = run W (step W rb op) ops := rfl
    rw [hrun]
    refine ⟨by rw [g1, h1], by rw [g2, h1], g3, g4, by rw [h1] at g5; exact g5, ?_⟩
    rw [g6, h1, h6]
    rfl

/-- Effect of one `put` on the cursor distance, with its success flag. -/
lemma step_put_usub (W k : Nat) (hk : k < W) (rb : ring_buffer) (b : Nat)
    (hcap : rb.n_elem = 2 ^ k)
    (hh : rb.head < umod W) (ht : rb.tail < umod W)
    (hd : usub W rb.head rb.tail ≤ rb.n_elem) :
    usub W (step W rb (.put b)).head (step W rb (.put b)).tail
      = usub W rb.head rb.tail + (if put_ok W rb b then 1 else 0) := by
  by_cases hfull : ring_buffer_full W rb = true
  · have hstep : step W rb (.put b) = rb := by
      simp [step, ring_buffer_put, hfull]
    have hok : put_ok W rb b = false := by
      simp [put_ok, ring_buffer_put, hfull]
    rw [hstep, hok]
    simp
  · have hfull' : usub W rb.head rb.tail ≠ rb.n_elem := by
      simpa [ring_buffer_full] using hfull
    have hdlt : usub W rb.head rb.tail < rb.n_elem := lt_of_le_of_ne hd hfull'
    have hcapM : 2 ^ k < umod W := Nat.pow_lt_pow_right (by decide) hk
    have hd1 : usub W rb.head rb.tail + 1 < umod W := by
      rw [hcap] at hdlt; omega
    have hok : put_ok W rb b = true := by
      simp [put_ok, ring_buffer_put, hfull]
    have hstep : (step W rb (.put b)).head = (rb.head + 1) % umod W ∧
        (step W rb (.put b)).tail = rb.tail := by
      constructor <;> simp [step, ring_buffer_put, hfull]
    rw [hstep.1, hstep.2, hok, usub_head_succ W rb.head rb.tail hh ht hd1]
    simp

/-- Effect of one `get` on the cursor distance, with its success flag. -/
lemma step_get_usub (W : Nat) (rb : ring_buffer)
    (hh : rb.head < umod W) (ht : rb.tail < umod W) :
    usub W (step W rb .get).head (step W rb .get).tail
        + (if get_ok W rb then 1 else 0)
      = usub W rb.head rb.tail := by
  by_cases hempty : ring_buffer_empty W rb = true
  · have hstep : step W rb .get = rb := by
      simp [step, ring_buffer_get, hempty]
    have hok : get_ok W rb = false := by
      simp [get_ok, ring_buffer_get, hempty]
    rw [hstep, hok]
    simp
  · have hempty' : usub W rb.head rb.tail ≠ 0 := by
      simpa [ring_buffer_empty] using hempty
    have hdpos : 0 < usub W rb.head rb.tail := Nat.pos_of_ne_zero hempty'
    have hok : get_ok W rb = true := by
      simp [get_ok, ring_buffer_get, hempty]
    have hstep : (step W rb .get).head = rb.head ∧
        (step W rb .get).tail = (rb.tail + 1) % umod W := by
      constructor <;> simp [step, ring_buffer_get, hempty]
    rw [hstep.1, hstep.2, hok, usub_tail_succ W rb.head rb.tail hh ht hdpos]
    simp
    omega

/-- Bookkeeping over a run: final cursor distance plus successful `get`s
equals initial cursor distance plus successful `put`s. -/
lemma run_count (W k : Nat) (hk : k < W) (ops : List Op) (rb : ring_buffer)
    (hcap : rb.n_elem = 2 ^ k) (hlen : rb.buf.length = rb.n_elem)
    (hh : rb.head < umod W) (ht : rb.tail < umod W)
    (hd : usub W rb.head rb.tail ≤ rb.n_elem) :
    usub W (run W rb ops).head (run W rb ops).tail + (countSucc W rb ops).2
      = usub W rb.head rb.tail + (countSucc W rb ops).1 := by
  induction ops generalizing rb with
  | nil => simp [run, countSucc]
  | cons op ops ih =>
    obtain ⟨h1, h2, h3, h4, h5, _⟩ := step_sim W k hk rb op hcap hlen hh ht hd
    have hcap' : (step W rb op).n_elem = 2 ^ k := by rw [h1, hcap]
    have hlen' : (step W rb op).buf.length = (step W rb op).n_elem := by
      rw [h1]; exact h2
    have hd5 : usub W (step W rb op).head (step W rb op).tail
        ≤ (step W rb op).n_elem := by rw [h1]; exact h5
    have hrec := ih (step W rb op) hcap' hlen' h3 h4 hd5
    have hrun : run W rb (op :: ops) = run W (step W rb op) ops := rfl
    rw [hrun]
    cases op with
    | put b =>
      have hcnt : countSucc W rb (.put b :: ops)
          = ((if put_ok W rb b then (countSucc W (step W rb (.put b)) ops).1 + 1
              else (countSucc W (step W rb (.put b)) ops).1),
             (countSucc W (step W rb (.put b)) ops).2) := by
        simp only [countSucc]
      rw [hcnt]
      have hstep := step_put_usub W k hk rb b hcap hh ht hd
      by_cases hok : put_ok W rb b
      all_goals simp [hok] at hstep ⊢
      all_goals omega
    | get =>
      have hcnt : countSucc W rb (.get :: ops)
          = ((countSucc W (step W rb .get) ops).1,
             (if get_ok W rb then (countSucc W (step W rb .get) ops).2 + 1
              else (countSucc W (step W rb .get) ops).2)) := by
        simp only [countSucc]
      rw [hcnt]
      have hstep := step_get_usub W rb hh ht
      by_cases hok : get_ok W rb
      all_goals simp [hok] at hstep ⊢
      all_goals omega

/-! ### Initialization -/

/-- A power-of-two capacity with non-NULL storage initializes successfully,
resetting both cursors and installing capacity and storage. -/
lemma init_pow_two (W k : Nat) (storage : List Nat) (rb0 : ring_buffer)
    (hk : k < W) :
    ring_buffer_init W (some ⟨2 ^ k, some storage⟩) rb0
      = (0, ⟨2 ^ k, storage, 0, 0⟩) := by
  simp [ring_buffer_init, pow_two_mask_test W k hk]

/-- The source's `init` returns only `0` or `-1`. -/
lemma init_result (W : Nat) (attr : Option ringbuffer_attribute)
    (rb : ring_buffer) :
    (ring_buffer_init W attr rb).1 = 0 ∨ (ring_buffer_init W attr rb).1 = -1 := by
  rcases attr with _ | ⟨cap, buffer⟩
  · exact Or.inr rfl
  rcases buffer with _ | storage
  · exact Or.inr rfl
  by_cases hc : (usub W cap 1 &&& cap == 0) = true
  · left
    simp [ring_buffer_init, hc]
  · right
    simp [ring_buffer_init, hc]

/-- The demo state is well formed at the 32-bit cursor width. -/
lemma demoInitialized : Initialized 32 demoState :=
  ⟨by decide, ⟨3, by decide, by decide⟩, umod_pos 32, umod_pos 32⟩

lemma usub_zero_zero (W : Nat) : usub W 0 0 = 0 := by
  rw [usub_char W 0 0 (umod_pos W) (umod_pos W)]
  simp

lemma full_eq_false_iff (W : Nat) (rb : ring_buffer) :
    ring_buffer_full W rb = false ↔ usub W rb.head rb.tail ≠ rb.n_elem := by
  simp [ring_buffer_full]

lemma empty_eq_false_iff (W : Nat) (rb : ring_buffer) :
    ring_buffer_empty W rb = false ↔ usub W rb.head rb.tail ≠ 0 := by
  simp [ring_buffer_empty]

lemma put_res_of_not_full (W : Nat) (rb : ring_buffer) (b : Nat)
    (h : ring_buffer_full W rb = false) : (ring_buffer_put W rb b).1 = 0 := by
  simp [ring_buffer_put, h]

lemma get_res_of_not_empty (W : Nat) (rb : ring_buffer)
    (h : ring_buffer_empty W rb = false) : (ring_buffer_get W rb).1 = 0 := by
  simp [ring_buffer_get, h]

/-! ### Claims -/

/-- C1: on every initialized buffer state that is not full, `put` returns
success (`0`), writes the byte into storage at offset
`head & (capacity - 1)` (it is readable back from that slot), increments
`head` by exactly one wrapping at the cursor width, and leaves `tail` and
the capacity alone; on every full state `put` returns the failure code
`-1` (`Full`) and leaves the whole state unchanged. -/
theorem C1_put_contract (W : Nat) (rb : ring_buffer) (b : Nat)
    (hI : Initialized W rb) :
    (ring_buffer_full W rb = false →
      (ring_buffer_put W rb b).1 = 0 ∧
      (ring_buffer_put W rb b).2.buf
        = rb.buf.set (rb.head &&& usub W rb.n_elem 1) b ∧
      (ring_buffer_put W rb b).2.buf.getD (rb.head &&& usub W rb.n_elem 1) 0
        = b ∧
      (ring_buffer_put W rb b).2.head = (rb.head + 1) % umod W ∧
      (ring_buffer_put W rb b).2.tail = rb.tail ∧
      (ring_buffer_put W rb b).2.n_elem = rb.n_elem) ∧
    (ring_buffer_full W rb = true → ring_buffer_put W rb b = (-1, rb)) := by
  obtain ⟨hlen, ⟨k, hk, hcap⟩, hh, ht⟩ := hI
  constructor
  · intro hfull
    have hfull' : ¬ ring_buffer_full W rb = true := by simp [hfull]
    have hoff : rb.head &&& usub W rb.n_elem 1 = rb.head % 2 ^ k := by
      rw [hcap, offset_eq W k _ hk]
    have hpos : rb.head % 2 ^ k < rb.buf.length := by
      rw [hlen, hcap]
      exact Nat.mod_lt _ (Nat.two_pow_pos k)
    refine ⟨by simp [ring_buffer_put, hfull'], by simp [ring_buffer_put, hfull'],
      ?_, by simp [ring_buffer_put, hfull'], by simp [ring_buffer_put, hfull'],
      by simp [ring_buffer_put, hfull']⟩
    simp only [ring_buffer_put, hfull', if_false, Bool.false_eq_true]
    rw [hoff, List.getD_eq_getElem?_getD, List.getElem?_set_self hpos]
    rfl
  · intro hfull
    simp [ring_buffer_put, hfull]

/-- Witness for C1 at the demo configuration, putting byte `65`. -/
theorem C1_put_contract_witness :
    (ring_buffer_put 32 demoState 65).1 = 0 ∧
    (ring_buffer_put 32 demoState 65).2.buf
      = demoState.buf.set (demoState.head &&& usub 32 demoState.n_elem 1) 65 ∧
    (ring_buffer_put 32 demoState 65).2.buf.getD
      (demoState.head &&& usub 32 demoState.n_elem 1) 0 = 65 ∧
    (ring_buffer_put 32 demoState 65).2.head = (demoState.head + 1) % umod 32 ∧
    (ring_buffer_put 32 demoState 65).2.tail = demoState.tail ∧
    (ring_buffer_put 32 demoState 65).2.n_elem = demoState.n_elem :=
  (C1_put_contract 32 demoState 65 demoInitialized).1 (by decide)

/-- C2: on every initialized buffer state that is not empty, `get` returns
success (`0`) together with the byte stored at offset
`tail & (capacity - 1)`, increments `tail` by exactly one wrapping at the
cursor width, and leaves `head`, the storage and the capacity alone; on
every empty state `get` returns the failure code `-1` (`Empty`), no byte,
and leaves the whole state unchanged. -/
theorem C2_get_contract (W : Nat) (rb : ring_buffer)
    (_hI : Initialized W rb) :
    (ring_buffer_empty W rb = false →
      (ring_buffer_get W rb).1 = 0 ∧
      (ring_buffer_get W rb).2.1
        = some (rb.buf.getD (rb.tail &&& usub W rb.n_elem 1) 0) ∧
      (ring_buffer_get W rb).2.2.tail = (rb.tail + 1) % umod W ∧
      (ring_buffer_get W rb).2.2.head = rb.head ∧
      (ring_buffer_get W rb).2.2.buf = rb.buf ∧
      (ring_buffer_get W rb).2.2.n_elem = rb.n_elem) ∧
    (ring_buffer_empty W rb = true → ring_buffer_get W rb = (-1, none, rb)) := by
  constructor
  · intro hempty
    have hempty' : ¬ ring_buffer_empty W rb = true := by simp [hempty]
    exact ⟨by simp [ring_buffer_get, hempty'], by simp [ring_buffer_get, hempty'],
      by simp [ring_buffer_get, hempty'], by simp [ring_buffer_get, hempty'],
      by simp [ring_buffer_get, hempty'], by simp [ring_buffer_get, hempty']⟩
  · intro hempty
    simp [ring_buffer_get, hempty]

/-- Witness for C2: the demo state with one byte `65` enqueued. -/
theorem C2_get_contract_witness :
    (ring_buffer_get 32 (ring_buffer_put 32 demoState 65).2).1 = 0 ∧
    (ring_buffer_get 32 (ring_buffer_put 32 demoState 65).2).2.1
      = some ((ring_buffer_put 32 demoState 65).2.buf.getD
          ((ring_buffer_put 32 demoState 65).2.tail
            &&& usub 32 (ring_buffer_put 32 demoState 65).2.n_elem 1) 0) ∧
    (ring_buffer_get 32 (ring_buffer_put 32 demoState 65).2).2.2.tail
      = ((ring_buffer_put 32 demoState 65).2.tail + 1) % umod 32 ∧
    (ring_buffer_get 32 (ring_buffer_put 32 demoState 65).2).2.2.head
      = (ring_buffer_put 32 demoState 65).2.head ∧
    (ring_buffer_get 32 (ring_buffer_put 32 demoState 65).2).2.2.buf
      = (ring_buffer_put 32 demoState 65).2.buf ∧
    (ring_buffer_get 32 (ring_buffer_put 32 demoState 65).2).2.2.n_elem
      = (ring_buffer_put 32 demoState 65).2.n_elem :=
  (C2_get_contract 32 (ring_buffer_put 32 demoState 65).2
    ⟨by decide, ⟨3, by decide, by decide⟩, by decide, by decide⟩).1 (by decide)

/-- C10: a successful `put` modifies only the head cursor and the single
storage slot at `head & (capacity - 1)` — tail, capacity, the storage
length and every other slot are unchanged; a successful `get` modifies
only the tail cursor — head, capacity and the whole storage (including
the slot just read) are unchanged. -/
theorem C10_success_frame (W : Nat) (rb : ring_buffer) (b : Nat)
    (_hI : Initialized W rb) :
    ((ring_buffer_put W rb b).1 = 0 →
      (ring_buffer_put W rb b).2.tail = rb.tail ∧
      (ring_buffer_put W rb b).2.n_elem = rb.n_elem ∧
      (ring_buffer_put W rb b).2.buf.length = rb.buf.length ∧
      ∀ j, j ≠ rb.head &&& usub W rb.n_elem 1 →
        (ring_buffer_put W rb b).2.buf.getD j 0 = rb.buf.getD j 0) ∧
    ((ring_buffer_get W rb).1 = 0 →
      (ring_buffer_get W rb).2.2.head = rb.head ∧
      (ring_buffer_get W rb).2.2.n_elem = rb.n_elem ∧
      (ring_buffer_get W rb).2.2.buf = rb.buf) := by
  constructor
  · intro hput
    have hfull : ¬ ring_buffer_full W rb = true := by
      intro hfull
      simp [ring_buffer_put, hfull] at hput
    refine ⟨by simp [ring_buffer_put, hfull], by simp [ring_buffer_put, hfull],
      by simp [ring_buffer_put, hfull], ?_⟩
    intro j hj
    have h2 : (ring_buffer_put W rb b).2.buf
        = rb.buf.set (rb.head &&& usub W rb.n_elem 1) b := by
      simp [ring_buffer_put, hfull]
    rw [h2, List.getD_eq_getElem?_getD, List.getD_eq_getElem?_getD,
      List.getElem?_set_ne (Ne.symm hj)]
  · intro hget
    have hempty : ¬ ring_buffer_empty W rb = true := by
      intro hempty
      simp [ring_buffer_get, hempty] at hget
    exact ⟨by simp [ring_buffer_get, hempty], by simp [ring_buffer_get, hempty],
      by simp [ring_buffer_get, hempty]⟩

/-- Witness for C10 at the demo configuration with byte `65`. -/
theorem C10_success_frame_witness :
    (((ring_buffer_put 32 demoState 65).1 = 0 →
      (ring_buffer_put 32 demoState 65).2.tail = demoState.tail ∧
      (ring_buffer_put 32 demoState 65).2.n_elem = demoState.n_elem ∧
      (ring_buffer_put 32 demoState 65).2.buf.length = demoState.buf.length ∧
      ∀ j, j ≠ demoState.head &&& usub 32 demoState.n_elem 1 →
        (ring_buffer_put 32 demoState 65).2.buf.getD j 0
          = demoState.buf.getD j 0) ∧
    ((ring_buffer_get 32 demoState).1 = 0 →
      (ring_buffer_get 32 demoState).2.2.head = demoState.head ∧
      (ring_buffer_get 32 demoState).2.2.n_elem = demoState.n_elem ∧
      (ring_buffer_get 32 demoState).2.2.buf = demoState.buf)) :=
  C10_success_frame 32 demoState 65 demoInitialized

/-- C5: `ring_buffer_full` is true exactly when the wrapping cursor
difference equals the capacity and `ring_buffer_empty` exactly when it is
0 (both are pure queries of the state: in this embedding they return a
`Bool` and no modified state), and immediately after a successful `init`
with any power-of-two capacity (`2 ^ k`, any `k`, so any capacity ≥ 1)
the buffer is empty and not full. -/
theorem C5_full_empty_queries (W k : Nat) (rb rb0 : ring_buffer)
    (storage : List Nat) (hk : k < W) :
    (ring_buffer_full W rb = true ↔ usub W rb.head rb.tail = rb.n_elem) ∧
    (ring_buffer_empty W rb = true ↔ usub W rb.head rb.tail = 0) ∧
    ring_buffer_empty W (ring_buffer_init W (some ⟨2 ^ k, some storage⟩) rb0).2
      = true ∧
    ring_buffer_full W (ring_buffer_init W (some ⟨2 ^ k, some storage⟩) rb0).2
      = false := by
  have h0 : usub W 0 0 = 0 := by
    rw [usub_char W 0 0 (umod_pos W) (umod_pos W)]
    simp
  have hpos := Nat.two_pow_pos k
  refine ⟨by simp [ring_buffer_full], by simp [ring_buffer_empty], ?_, ?_⟩
  · rw [init_pow_two W k storage rb0 hk]
    simp [ring_buffer_empty, h0]
  · rw [init_pow_two W k storage rb0 hk]
    simp only [ring_buffer_full, h0]
    simp
    omega

/-- Witness for C5 at the demo configuration (capacity `2 ^ 3 = 8`). -/
theorem C5_full_empty_queries_witness :
    (ring_buffer_full 32 demoState = true
      ↔ usub 32 demoState.head demoState.tail = demoState.n_elem) ∧
    (ring_buffer_empty 32 demoState = true
      ↔ usub 32 demoState.head demoState.tail = 0) ∧
    ring_buffer_empty 32
      (ring_buffer_init 32 (some ⟨2 ^ 3, some (List.replicate 8 0)⟩)
        demoState).2 = true ∧
    ring_buffer_full 32
      (ring_buffer_init 32 (some ⟨2 ^ 3, some (List.replicate 8 0)⟩)
        demoState).2 = false :=
  C5_full_empty_queries 32 3 demoState demoState (List.replicate 8 0)
    (by decide)

/-- C6 (code bug): the source's capacity check
`((attr->n_elem - 1) & attr->n_elem) == 0` also accepts capacity 0
(`(0u - 1) & 0 == 0`), so `init` with non-null storage and capacity 0
succeeds instead of failing, contradicting the source's own comment
"Check that the size of the ring buffer is a power of 2"; capacity 3 is
rejected, capacity 8 is accepted (resetting both cursors and installing
capacity and storage, even over a dirty previous state), and a NULL
storage or NULL attribute is rejected. -/
theorem C6_init_capacity_zero_bug :
    (ring_buffer_init 32 (some ⟨0, some (List.replicate 8 0)⟩) demoState).1
      = 0 ∧
    (ring_buffer_init 32 (some ⟨0, some (List.replicate 8 0)⟩)
      demoState).2.n_elem = 0 ∧
    (ring_buffer_init 32 (some ⟨3, some (List.replicate 8 0)⟩) demoState).1
      = -1 ∧
    (ring_buffer_init 32 (some ⟨8, some (List.replicate 8 0)⟩) ⟨5, [1, 2], 7, 9⟩)
      = (0, ⟨8, List.replicate 8 0, 0, 0⟩) ∧
    (ring_buffer_init 32 (some ⟨8, none⟩) demoState).1 = -1 ∧
    (ring_buffer_init 32 none demoState).1 = -1 := by
  refine ⟨?_, ?_, ?_, ?_, ?_, ?_⟩ <;> decide

/-- C7 counterexample: the claim that some pair of invalid `init` inputs
(bad capacity on one side, NULL storage on the other) yields two failure
results that differ from each other is false — every failing `init`
returns the same code `-1`. -/
theorem C7_counterexample :
    ¬ ∃ (a1 a2 : Option ringbuffer_attribute) (rb1 rb2 : ring_buffer),
      (ring_buffer_init 32 a1 rb1).1 ≠ 0 ∧
      (ring_buffer_init 32 a2 rb2).1 ≠ 0 ∧
      (ring_buffer_init 32 a1 rb1).1 ≠ (ring_buffer_init 32 a2 rb2).1 := by
  rintro ⟨a1, a2, rb1, rb2, h1, h2, h3⟩
  rcases init_result 32 a1 rb1 with h | h
  · exact h1 h
  rcases init_result 32 a2 rb2 with g | g
  · exact h2 g
  exact h3 (h.trans g.symm)

/-- C7 amended: every failing `init` is distinguishable from success (it
returns `-1` where success returns `0`), but the two failure kinds are
signalled by the same value: a capacity failing the power-of-two test and
a NULL storage both yield exactly `-1`. -/
theorem C7_uniform_failure_value (W : Nat) (cap : Nat) (storage : List Nat)
    (rb1 rb2 : ring_buffer) (hbad : ¬ usub W cap 1 &&& cap = 0) :
    (ring_buffer_init W (some ⟨cap, some storage⟩) rb1).1 = -1 ∧
    (ring_buffer_init W (some ⟨cap, none⟩) rb2).1 = -1 ∧
    (ring_buffer_init W (some ⟨cap, some storage⟩) rb1).1 ≠ 0 ∧
    (ring_buffer_init W (some ⟨cap, some storage⟩) rb1).1
      = (ring_buffer_init W (some ⟨cap, none⟩) rb2).1 := by
  have h1 : (ring_buffer_init W (some ⟨cap, some storage⟩) rb1).1 = -1 := by
    simp [ring_buffer_init, hbad]
  have h2 : (ring_buffer_init W (some ⟨cap, none⟩) rb2).1 = -1 := by
    simp [ring_buffer_init]
  refine ⟨h1, h2, by rw [h1]; decide, by rw [h1, h2]⟩

/-- Witness for the amended C7: capacity 3 versus NULL storage at width
32; both failures return `-1`. -/
theorem C7_uniform_failure_value_witness :
    (ring_buffer_init 32 (some ⟨3, some (List.replicate 8 0)⟩) demoState).1
      = -1 ∧
    (ring_buffer_init 32 (some ⟨3, none⟩) demoState).1 = -1 ∧
    (ring_buffer_init 32 (some ⟨3, some (List.replicate 8 0)⟩) demoState).1
      ≠ 0 ∧
    (ring_buffer_init 32 (some ⟨3, some (List.replicate 8 0)⟩) demoState).1
      = (ring_buffer_init 32 (some ⟨3, none⟩) demoState).1 :=
  C7_uniform_failure_value 32 3 (List.replicate 8 0) demoState demoState
    (by decide)

/-- C9 (code bug): `uart_getchar` reads the dequeued byte through a signed
`char`, so the stored byte `0xFF = 255` comes back as `-1` — exactly the
value returned on an empty buffer.  The ring buffer itself successfully
stores and returns the byte `255`, yet the `uart_getchar` success result
is indistinguishable from its empty-buffer failure result. -/
theorem C9_uart_getchar_0xFF_collision :
    (ring_buffer_get 32 (ring_buffer_put 32 demoState 255).2).1 = 0 ∧
    (ring_buffer_get 32 (ring_buffer_put 32 demoState 255).2).2.1
      = some 255 ∧
    (uart_getchar 32 (ring_buffer_put 32 demoState 255).2).1 = -1 ∧
    (uart_getchar 32 demoState).1 = -1 := by
  refine ⟨?_, ?_, ?_, ?_⟩ <;> decide

/-- C3: the buffer is FIFO.  From an otherwise-empty initialized buffer,
`put(b)` followed by `get()` succeeds and returns `b`; and when the
capacity is at least 2, `put(a); put(b); get(); get()` succeeds throughout
and returns `a` from the first `get` and `b` from the second. -/
theorem C3_fifo_order (W : Nat) (rb : ring_buffer) (a b : Nat)
    (hI : Initialized W rb) (hE : ring_buffer_empty W rb = true) :
    ((ring_buffer_put W rb b).1 = 0 ∧
     (ring_buffer_get W (ring_buffer_put W rb b).2).1 = 0 ∧
     (ring_buffer_get W (ring_buffer_put W rb b).2).2.1 = some b) ∧
    (2 ≤ rb.n_elem →
      (ring_buffer_put W rb a).1 = 0 ∧
      (ring_buffer_put W (ring_buffer_put W rb a).2 b).1 = 0 ∧
      (ring_buffer_get W
        (ring_buffer_put W (ring_buffer_put W rb a).2 b).2).1 = 0 ∧
      (ring_buffer_get W
        (ring_buffer_put W (ring_buffer_put W rb a).2 b).2).2.1 = some a ∧
      (ring_buffer_get W
        (ring_buffer_get W
          (ring_buffer_put W (ring_buffer_put W rb a).2 b).2).2.2).1 = 0 ∧
      (ring_buffer_get W
        (ring_buffer_get W
          (ring_buffer_put W (ring_buffer_put W rb a).2 b).2).2.2).2.1
        = some b) := by
  obtain ⟨hlen, ⟨k, hk, hcap⟩, hh, ht⟩ := hI
  have hd0 : usub W rb.head rb.tail = 0 := by
    simpa [ring_buffer_empty] using hE
  have hq0 : contents W rb = [] := by simp [contents, hd0]
  have hcpos : 0 < 2 ^ k := Nat.two_pow_pos k
  have hd : usub W rb.head rb.tail ≤ rb.n_elem := by
    rw [hd0]
    exact Nat.zero_le _
  constructor
  · have hfull0 : ring_buffer_full W rb = false :=
      (full_eq_false_iff W rb).mpr (by rw [hd0, hcap]; omega)
    obtain ⟨h1, h2, h3, h4, h5, h6⟩ :=
      step_sim W k hk rb (.put b) hcap hlen hh ht hd
    simp only [step] at h1 h2 h3 h4 h5 h6
    have hcap1 : (ring_buffer_put W rb b).2.n_elem = 2 ^ k := by
      rw [h1, hcap]
    have hq1 : contents W (ring_buffer_put W rb b).2 = [b] := by
      rw [h6, hq0]
      simp [idealStep, hcap, hcpos]
    have hu1 : usub W (ring_buffer_put W rb b).2.head
        (ring_buffer_put W rb b).2.tail = 1 := by
      rw [← contents_length W (ring_buffer_put W rb b).2, hq1]
      rfl
    have hempty1 : ring_buffer_empty W (ring_buffer_put W rb b).2 = false :=
      (empty_eq_false_iff W _).mpr (by rw [hu1]; omega)
    refine ⟨put_res_of_not_full W rb b hfull0,
      get_res_of_not_empty W _ hempty1, ?_⟩
    rw [get_val W k hk _ hcap1, hq1]
    rfl
  · intro h2cap
    have hfull0 : ring_buffer_full W rb = false :=
      (full_eq_false_iff W rb).mpr (by rw [hd0]; omega)
    obtain ⟨h1, h2, h3, h4, h5, h6⟩ :=
      step_sim W k hk rb (.put a) hcap hlen hh ht hd
    simp only [step] at h1 h2 h3 h4 h5 h6
    have hcap1 : (ring_buffer_put W rb a).2.n_elem = 2 ^ k := by
      rw [h1, hcap]
    have hlen1 : (ring_buffer_put W rb a).2.buf.length
        = (ring_buffer_put W rb a).2.n_elem := by
      rw [hcap1, ← hcap]
      exact h2
    have hq1 : contents W (ring_buffer_put W rb a).2 = [a] := by
      rw [h6, hq0]
      simp [idealStep, hcap, hcpos]
    have hu1 : usub W (ring_buffer_put W rb a).2.head
        (ring_buffer_put W rb a).2.tail = 1 := by
      rw [← contents_length W (ring_buffer_put W rb a).2, hq1]
      rfl
    have hd1 : usub W (ring_buffer_put W rb a).2.head
        (ring_buffer_put W rb a).2.tail
        ≤ (ring_buffer_put W rb a).2.n_elem := by
      rw [hu1, hcap1]
      omega
    have hfull1 : ring_buffer_full W (ring_buffer_put W rb a).2 = false := by
      refine (full_eq_false_iff W _).mpr ?_
      rw [hu1, hcap1, hcap] at *
      omega
    obtain ⟨g1, g2, g3, g4, g5, g6⟩ :=
      step_sim W k hk (ring_buffer_put W rb a).2 (.put b) hcap1 hlen1 h3 h4 hd1
    simp only [step] at g1 g2 g3 g4 g5 g6
    have hcap2 : (ring_buffer_put W (ring_buffer_put W rb a).2 b).2.n_elem
        = 2 ^ k := by
      rw [g1, hcap1]
    have hlen2 : (ring_buffer_put W (ring_buffer_put W rb a).2 b).2.buf.length
        = (ring_buffer_put W (ring_buffer_put W rb a).2 b).2.n_elem := by
      rw [hcap2, ← hcap1]
      exact g2
    have h1lt : (1 : Nat) < 2 ^ k := by
      rw [hcap] at h2cap
      omega
    have hq2 : contents W (ring_buffer_put W (ring_buffer_put W rb a).2 b).2
        = [a, b] := by
      rw [g6, hq1]
      simp [idealStep, hcap1, h1lt]
    have hu2 : usub W (ring_buffer_put W (ring_buffer_put W rb a).2 b).2.head
        (ring_buffer_put W (ring_buffer_put W rb a).2 b).2.tail = 2 := by
      rw [← contents_length W (ring_buffer_put W (ring_buffer_put W rb a).2 b).2,
        hq2]
      rfl
    have hempty2 : ring_buffer_empty W
        (ring_buffer_put W (ring_buffer_put W rb a).2 b).2 = false :=
      (empty_eq_false_iff W _).mpr (by rw [hu2]; omega)
    have hd2 : usub W (ring_buffer_put W (ring_buffer_put W rb a).2 b).2.head
        (ring_buffer_put W (ring_buffer_put W rb a).2 b).2.tail
        ≤ (ring_buffer_put W (ring_buffer_put W rb a).2 b).2.n_elem := by
      rw [hu2, hcap2]
      omega
    obtain ⟨f1, f2, f3, f4, f5, f6⟩ :=
      step_sim W k hk (ring_buffer_put W (ring_buffer_put W rb a).2 b).2 .get
        hcap2 hlen2 g3 g4 hd2
    simp only [step] at f1 f2 f3 f4 f5 f6
    have hcap3 : (ring_buffer_get W
        (ring_buffer_put W (ring_buffer_put W rb a).2 b).2).2.2.n_elem
        = 2 ^ k := by
      rw [f1, hcap2]
    have hq3 : contents W (ring_buffer_get W
        (ring_buffer_put W (ring_buffer_put W rb a).2 b).2).2.2 = [b] := by
      rw [f6, hq2]
      simp [idealStep]
    have hu3 : usub W (ring_buffer_get W
        (ring_buffer_put W (ring_buffer_put W rb a).2 b).2).2.2.head
        (ring_buffer_get W
          (ring_buffer_put W (ring_buffer_put W rb a).2 b).2).2.2.tail
        = 1 := by
      rw [← contents_length W (ring_buffer_get W
        (ring_buffer_put W (ring_buffer_put W rb a).2 b).2).2.2, hq3]
      rfl
    have hempty3 : ring_buffer_empty W (ring_buffer_get W
        (ring_buffer_put W (ring_buffer_put W rb a).2 b).2).2.2 = false :=
      (empty_eq_false_iff W _).mpr (by rw [hu3]; omega)
    refine ⟨put_res_of_not_full W rb a hfull0,
      put_res_of_not_full W _ b hfull1,
      get_res_of_not_empty W _ hempty2, ?_,
      get_res_of_not_empty W _ hempty3, ?_⟩
    · rw [get_val W k hk _ hcap2, hq2]
      rfl
    · rw [get_val W k hk _ hcap3, hq3]
      rfl

/-- Witness for C3: the demo configuration with bytes `65` and `66`. -/
theorem C3_fifo_order_witness :
    (((ring_buffer_put 32 demoState 66).1 = 0 ∧
     (ring_buffer_get 32 (ring_buffer_put 32 demoState 66).2).1 = 0 ∧
     (ring_buffer_get 32 (ring_buffer_put 32 demoState 66).2).2.1 = some 66) ∧
    (2 ≤ demoState.n_elem →
      (ring_buffer_put 32 demoState 65).1 = 0 ∧
      (ring_buffer_put 32 (ring_buffer_put 32 demoState 65).2 66).1 = 0 ∧
      (ring_buffer_get 32
        (ring_buffer_put 32 (ring_buffer_put 32 demoState 65).2 66).2).1 = 0 ∧
      (ring_buffer_get 32
        (ring_buffer_put 32 (ring_buffer_put 32 demoState 65).2 66).2).2.1
        = some 65 ∧
      (ring_buffer_get 32
        (ring_buffer_get 32
          (ring_buffer_put 32
            (ring_buffer_put 32 demoState 65).2 66).2).2.2).1 = 0 ∧
      (ring_buffer_get 32
        (ring_buffer_get 32
          (ring_buffer_put 32
            (ring_buffer_put 32 demoState 65).2 66).2).2.2).2.1
        = some 66)) :=
  C3_fifo_order 32 demoState 65 66 demoInitialized (by decide)

/-- C4: after a successful `init` with power-of-two capacity `2 ^ k`, for
every sequence of `put`/`get` calls the wrapping cursor difference
`head - tail` equals the number of successful `put`s minus the number of
successful `get`s (which never exceeds the former), lies in
`[0, capacity]`, is 0 exactly when the buffer reports empty, and equals
the capacity exactly when it reports full. -/
theorem C4_cursor_distance_invariant (W k : Nat) (storage : List Nat)
    (ops : List Op) (rb0 rb1 : ring_buffer) (hk : k < W)
    (hlen : storage.length = 2 ^ k)
    (hinit : ring_buffer_init W (some ⟨2 ^ k, some storage⟩) rb0 = (0, rb1)) :
    (countSucc W rb1 ops).2 ≤ (countSucc W rb1 ops).1 ∧
    usub W (run W rb1 ops).head (run W rb1 ops).tail
      = (countSucc W rb1 ops).1 - (countSucc W rb1 ops).2 ∧
    usub W (run W rb1 ops).head (run W rb1 ops).tail ≤ 2 ^ k ∧
    (ring_buffer_empty W (run W rb1 ops) = true
      ↔ usub W (run W rb1 ops).head (run W rb1 ops).tail = 0) ∧
    (ring_buffer_full W (run W rb1 ops) = true
      ↔ usub W (run W rb1 ops).head (run W rb1 ops).tail = 2 ^ k) := by
  rw [init_pow_two W k storage rb0 hk] at hinit
  have hrb1 : rb1 = ⟨2 ^ k, storage, 0, 0⟩ := (congrArg Prod.snd hinit).symm
  subst hrb1
  have hd : usub W (0 : Nat) 0 ≤ 2 ^ k := by
    rw [usub_zero_zero]
    exact Nat.zero_le _
  obtain ⟨s1, s2, s3, s4, s5, s6⟩ :=
    run_sim W k hk ops ⟨2 ^ k, storage, 0, 0⟩ rfl hlen (umod_pos W)
      (umod_pos W) hd
  have hcnt := run_count W k hk ops ⟨2 ^ k, storage, 0, 0⟩ rfl hlen
    (umod_pos W) (umod_pos W) hd
  rw [usub_zero_zero, Nat.zero_add] at hcnt
  refine ⟨by omega, by omega, s5, by simp [ring_buffer_empty], ?_⟩
  simp [ring_buffer_full, s1]

/-- Witness for C4: the demo configuration running
`put 65; put 66; get; put 67; get; get; get`. -/
theorem C4_cursor_distance_invariant_witness :
    (countSucc 32 demoState
        [.put 65, .put 66, .get, .put 67, .get, .get, .get]).2
      ≤ (countSucc 32 demoState
          [.put 65, .put 66, .get, .put 67, .get, .get, .get]).1 ∧
    usub 32
        (run 32 demoState
          [.put 65, .put 66, .get, .put 67, .get, .get, .get]).head
        (run 32 demoState
          [.put 65, .put 66, .get, .put 67, .get, .get, .get]).tail
      = (countSucc 32 demoState
          [.put 65, .put 66, .get, .put 67, .get, .get, .get]).1
        - (countSucc 32 demoState
            [.put 65, .put 66, .get, .put 67, .get, .get, .get]).2 ∧
    usub 32
        (run 32 demoState
          [.put 65, .put 66, .get, .put 67, .get, .get, .get]).head
        (run 32 demoState
          [.put 65, .put 66, .get, .put 67, .get, .get, .get]).tail
      ≤ 2 ^ 3 ∧
    (ring_buffer_empty 32
        (run 32 demoState [.put 65, .put 66, .get, .put 67, .get, .get, .get])
        = true
      ↔ usub 32
          (run 32 demoState
            [.put 65, .put 66, .get, .put 67, .get, .get, .get]).head
          (run 32 demoState
            [.put 65, .put 66, .get, .put 67, .get, .get, .get]).tail = 0) ∧
    (ring_buffer_full 32
        (run 32 demoState [.put 65, .put 66, .get, .put 67, .get, .get, .get])
        = true
      ↔ usub 32
          (run 32 demoState
            [.put 65, .put 66, .get, .put 67, .get, .get, .get]).head
          (run 32 demoState
            [.put 65, .put 66, .get, .put 67, .get, .get, .get]).tail
          = 2 ^ 3) :=
  C4_cursor_distance_invariant 32 3 (List.replicate 8 0)
    [.put 65, .put 66, .get, .put 67, .get, .get, .get] demoState demoState
    (by decide) (by decide) (by decide)

/-- C8: after a successful `init` with power-of-two capacity `2 ^ k`, for
every sequence of `put`/`get` calls whose total count exceeds the cursor
modulus `2 ^ W` (so the `head` and `tail` cursors overflow and wrap),
full/empty detection and slot-offset computation remain correct: the
buffer reports full exactly when the ideal bounded FIFO queue holds
`capacity` bytes, reports empty exactly when it holds none, and the next
`get` returns exactly the ideal queue's oldest byte. -/
theorem C8_wraparound_correct (W k : Nat) (storage : List Nat)
    (ops : List Op) (rb0 rb1 : ring_buffer) (hk : k < W)
    (hlen : storage.length = 2 ^ k)
    (hinit : ring_buffer_init W (some ⟨2 ^ k, some storage⟩) rb0 = (0, rb1))
    (_hlong : umod W < ops.length) :
    (ring_buffer_full W (run W rb1 ops) = true
      ↔ (idealRun (2 ^ k) [] ops).length = 2 ^ k) ∧
    (ring_buffer_empty W (run W rb1 ops) = true
      ↔ (idealRun (2 ^ k) [] ops).length = 0) ∧
    (ring_buffer_get W (run W rb1 ops)).2.1
      = (idealRun (2 ^ k) [] ops).head? := by
  rw [init_pow_two W k storage rb0 hk] at hinit
  have hrb1 : rb1 = ⟨2 ^ k, storage, 0, 0⟩ := (congrArg Prod.snd hinit).symm
  subst hrb1
  have hd : usub W (0 : Nat) 0 ≤ 2 ^ k := by
    rw [usub_zero_zero]
    exact Nat.zero_le _
  have hq0 : contents W ⟨2 ^ k, storage, 0, 0⟩ = [] := by
    simp [contents, usub_zero_zero]
  obtain ⟨s1, s2, s3, s4, s5, s6⟩ :=
    run_sim W k hk ops ⟨2 ^ k, storage, 0, 0⟩ rfl hlen (umod_pos W)
      (umod_pos W) hd
  rw [hq0] at s6
  have hulen : usub W (run W ⟨2 ^ k, storage, 0, 0⟩ ops).head
      (run W ⟨2 ^ k, storage, 0, 0⟩ ops).tail
      = (idealRun (2 ^ k) [] ops).length := by
    rw [← contents_length W (run W ⟨2 ^ k, storage, 0, 0⟩ ops), s6]
  have hcapR : (run W ⟨2 ^ k, storage, 0, 0⟩ ops).n_elem = 2 ^ k := s1
  refine ⟨?_, ?_, ?_⟩
  · simp [ring_buffer_full, hcapR, hulen]
  · simp [ring_buffer_empty, hulen]
  · rw [get_val W k hk _ hcapR, s6]

/-- Witness for C8 at cursor width 2 (modulus 4) with capacity `2 ^ 1 = 2`
and five operations, more than the cursor modulus, so the cursors wrap. -/
theorem C8_wraparound_correct_witness :
    (ring_buffer_full 2
        (run 2 ⟨2 ^ 1, [0, 0], 0, 0⟩ [.put 1, .get, .put 2, .get, .put 3])
        = true
      ↔ (idealRun (2 ^ 1) []
          [.put 1, .get, .put 2, .get, .put 3]).length = 2 ^ 1) ∧
    (ring_buffer_empty 2
        (run 2 ⟨2 ^ 1, [0, 0], 0, 0⟩ [.put 1, .get, .put 2, .get, .put 3])
        = true
      ↔ (idealRun (2 ^ 1) []
          [.put 1, .get, .put 2, .get, .put 3]).length = 0) ∧
    (ring_buffer_get 2
        (run 2 ⟨2 ^ 1, [0, 0], 0, 0⟩ [.put 1, .get, .put 2, .get, .put 3])).2.1
      = (idealRun (2 ^ 1) [] [.put 1, .get, .put 2, .get, .put 3]).head? :=
  C8_wraparound_correct 2 1 [0, 0] [.put 1, .get, .put 2, .get, .put 3]
    ⟨0, [], 0, 0⟩ ⟨2 ^ 1, [0, 0], 0, 0⟩ (by decide) (by decide) (by decide)
    (by decide)

end RingBufferC
